import Mathlib

/-!
Shallow embedding of the beaug fund-distribution engine.

Scope: the split planner (src/split_operations.rs), the transaction manager
(src/ledger_transaction_manager.rs), the transaction queue
(src/transaction_queue.rs) and the balance scanner (src/balance.rs).

Modelling conventions:
- Machine integers (U256, u64, u32, usize) are modelled as Nat.  The source
  guards every subtraction before performing it, so truncated Nat subtraction
  agrees with U256 arithmetic on every non-panicking path.
- Ethereum addresses and transaction hashes are opaque values, modelled as Nat.
- RPC calls and the signing device are oracles passed in as functions; a
  fallible call returns Except String.
- The random draw in prepare_random_transactions, which computes
  floor of range times a ratio drawn uniformly from the half-open unit
  interval, is modelled as an oracle function of the step index and the
  range; its contract (the draw never exceeds the range) is a hypothesis of
  the theorems that need it.
- Loops without a structural bound (the consecutive-empty scan, whose index
  is unbounded) take a fuel argument; running out of fuel yields a value
  distinguishable from every real outcome of the source.
-/

namespace Beaug

/-- Account snapshot, from src/types.rs (struct AccountInfo). -/
structure AccountInfo where
  index : Nat
  address : Nat
  balance : Nat
  nonce : Nat
  derivationPath : String
deriving DecidableEq

/-- Transaction to be executed, from src/ledger_transaction_manager.rs
(struct PendingTransaction).  The field toAddr models the field named to. -/
structure PendingTransaction where
  toAddr : Nat
  value : Nat
  gasLimit : Nat
  gasPrice : Nat
  operationName : String
deriving DecidableEq

/-- Result of a transaction attempt, from src/ledger_transaction_manager.rs
(enum TransactionResult). -/
inductive TransactionResult where
  | success (txHash : Nat) (blockNumber : Option Nat) (gasUsed : Nat)
  | failed (error : String) (retryable : Bool)
deriving DecidableEq

namespace SplitOperations

/-- Loop body of prepare_random_transactions (src/split_operations.rs).
Arguments after the oracles mirror the Rust locals: the receiver list still to
be processed, the enumeration index i, and current_balance.  totalReceivers is
receivers.len() of the original call.  The unused _gas_reserve parameter of the
source is omitted.  Returning the list built so far models the break
statements. -/
def prepareRandomGo (draws : Nat → Nat → Nat) (minTransfer txFee gasLimit gasPrice : Nat)
    (operationName : String) (remainingBalanceWei : Nat) (totalReceivers : Nat) :
    List AccountInfo → Nat → Nat → List PendingTransaction
  | [], _, _ => []
  | receiver :: rest, i, currentBalance =>
    let remainingReceivers := totalReceivers - i
    let dynamicGasReserve := txFee * remainingReceivers
    let mustKeep := remainingBalanceWei + dynamicGasReserve
    if currentBalance ≤ mustKeep + minTransfer then
      []
    else if remainingReceivers = 1 then
      -- Last transaction: send exactly what is needed to leave remaining_balance.
      if remainingBalanceWei + txFee + minTransfer < currentBalance then
        let amount := currentBalance - remainingBalanceWei - txFee
        { toAddr := receiver.address, value := amount, gasLimit := gasLimit,
          gasPrice := gasPrice,
          operationName := operationName ++ "_to_" ++ toString receiver.index }
          :: prepareRandomGo draws minTransfer txFee gasLimit gasPrice operationName
              remainingBalanceWei totalReceivers rest (i + 1)
              (currentBalance - (amount + txFee))
      else
        []
    else
      let availableToSend := currentBalance - mustKeep
      let maxSend := availableToSend / remainingReceivers
      if maxSend < minTransfer then
        []
      else
        let amount := minTransfer + draws i (maxSend - minTransfer)
        { toAddr := receiver.address, value := amount, gasLimit := gasLimit,
          gasPrice := gasPrice,
          operationName := operationName ++ "_to_" ++ toString receiver.index }
          :: prepareRandomGo draws minTransfer txFee gasLimit gasPrice operationName
              remainingBalanceWei totalReceivers rest (i + 1)
              (currentBalance - (amount + txFee))

/-- prepare_random_transactions (src/split_operations.rs, lines 162-234). -/
def prepareRandomTransactions (draws : Nat → Nat → Nat) (receivers : List AccountInfo)
    (sourceBalance minTransfer txFee gasLimit gasPrice : Nat) (operationName : String)
    (remainingBalanceWei : Nat) : List PendingTransaction :=
  prepareRandomGo draws minTransfer txFee gasLimit gasPrice operationName
    remainingBalanceWei receivers.length receivers 0 sourceBalance

/-- prepare_equal_transactions (src/split_operations.rs, lines 238-287).
The error strings keep the fixed part of the source's format strings. -/
def prepareEqualTransactions (receivers : List AccountInfo)
    (sourceBalance minTransfer txFee gasLimit gasPrice : Nat) (operationName : String)
    (remainingBalanceWei : Nat) : Except String (List PendingTransaction) :=
  let receiverCount := receivers.length
  let totalEstimatedFees := txFee * receiverCount
  if sourceBalance ≤ remainingBalanceWei + totalEstimatedFees then
    Except.error "Balance too low to cover fees and remaining balance for equal split."
  else
    let distributableBalance := sourceBalance - remainingBalanceWei - totalEstimatedFees
    let amountPerReceiver := distributableBalance / receiverCount
    if amountPerReceiver < minTransfer then
      Except.error "Calculated equal share is less than minimum required."
    else
      Except.ok (receivers.enum.map (fun p =>
        { toAddr := p.2.address, value := amountPerReceiver, gasLimit := gasLimit,
          gasPrice := gasPrice,
          operationName := operationName ++ "_equal_" ++ toString p.1 }))

/-- Fixed gas limit of prepare_split_transactions (gas_limit = 21000u64). -/
def splitGasLimit : Nat := 21000

/-- Effective gas price of prepare_split_transactions: the oracle gas price
scaled by the speed multiplier expressed in basis points. -/
def effectiveGasPriceOf (gasPrice gasSpeedBp : Nat) : Nat :=
  gasPrice * gasSpeedBp / 100

/-- Per-transaction fee of prepare_split_transactions:
effective_gas_price * gas_limit. -/
def txFeeOf (gasPrice gasSpeedBp : Nat) : Nat :=
  effectiveGasPriceOf gasPrice gasSpeedBp * splitGasLimit

/-- Base (unmultiplied) per-transaction fee of prepare_split_transactions:
gas_price * gas_limit. -/
def baseTxFeeOf (gasPrice : Nat) : Nat := gasPrice * splitGasLimit

/-- Minimum transfer amount of prepare_split_transactions: five times the base
per-transaction fee. -/
def minTransferOf (gasPrice : Nat) : Nat := baseTxFeeOf gasPrice * 5

end SplitOperations

namespace LedgerTransactionManager

/-- get_next_nonce (src/ledger_transaction_manager.rs, lines 124-140).  The
freshly fetched on-chain transaction count is the first argument; the second is
the current_nonce cell.  Returns the assigned nonce and the new cell value. -/
def getNextNonce (fetched : Nat) : Option Nat → Nat × Option Nat
  | some nonce => (max nonce fetched, some (max nonce fetched + 1))
  | none => (fetched, some (fetched + 1))

/-- Sequence of k get_next_nonce calls.  The oracle f gives the on-chain
transaction count fetched by each successive call. -/
def nonceCalls (f : Nat → Nat) : Nat → Option Nat → List Nat
  | 0, _ => []
  | k + 1, st =>
    let p := getNextNonce (f 0) st
    p.1 :: nonceCalls (fun i => f (i + 1)) k p.2

/-- Value of the current_nonce cell before the call with index i, for a manager
initialized with on-chain count c0 (initialize stores some c0). -/
def trackedNonce (f : Nat → Nat) (c0 : Nat) : Nat → Nat
  | 0 => c0
  | i + 1 => max (trackedNonce f c0 i) (f i) + 1

/-- Tests whether the first character list is an initial segment of the
second. -/
def listLeadEq : List Char → List Char → Bool
  | [], _ => true
  | _ :: _, [] => false
  | a :: as, b :: bs => a == b && listLeadEq as bs

/-- Tests whether the first character list occurs contiguously inside the
second. -/
def listFindSub (pat : List Char) : List Char → Bool
  | [] => listLeadEq pat []
  | c :: cs => listLeadEq pat (c :: cs) || listFindSub pat cs

/-- Substring test on strings, modelling str::contains. -/
def strContains (s pat : String) : Bool :=
  listFindSub pat.toList s.toList

/-- is_retryable_error (src/ledger_transaction_manager.rs, lines 269-282). -/
def isRetryableError (error : String) : Bool :=
  if strContains error "rejected" || strContains error "denied" || strContains error "Denied" then
    false
  else
    strContains error "timeout"
      || strContains error "network"
      || strContains error "connection"
      || strContains error "temporarily"
      || strContains error "rate limit"
      || strContains error "hidapi"
      || strContains error "Overlapped I/O operation is in progress"
      || strContains error "bad response"

/-- Success path of the retry loop: when the broadcast went out, wait for
confirmation if configured; a confirmation failure still reports Success with
no block or gas data. -/
def successResult (waitForConfirmation : Bool)
    (confirm : Nat → Except String (Option Nat × Nat)) (attempt txHash : Nat) :
    TransactionResult :=
  if waitForConfirmation then
    match confirm attempt with
    | Except.ok p => TransactionResult.success txHash p.1 p.2
    | Except.error _ => TransactionResult.success txHash none 0
  else
    TransactionResult.success txHash none 0

/-- Retry loop of execute_transaction (src/ledger_transaction_manager.rs,
lines 143-216).  The oracle send gives the outcome of
send_transaction_internal on each attempt (attempts are numbered from 1, as in
the source); confirm gives the outcome of wait_for_confirmation.  The nonce
bookkeeping is internal to these oracles.  retriesLeft equals
max_retries + 1 - attempt at the head of the loop, so the source's stopping
test attempt > max_retries is retriesLeft = 0; a failure then carries its
computed retryable classification, while with retries left a non-retryable
failure stops with retryable false and a retryable one loops. -/
def executeTransactionGo (waitForConfirmation : Bool)
    (send : Nat → Except String Nat)
    (confirm : Nat → Except String (Option Nat × Nat)) :
    Nat → Nat → TransactionResult
  | attempt, 0 =>
    match send (attempt + 1) with
    | Except.ok txHash => successResult waitForConfirmation confirm (attempt + 1) txHash
    | Except.error e => TransactionResult.failed e (isRetryableError e)
  | attempt, left + 1 =>
    match send (attempt + 1) with
    | Except.ok txHash => successResult waitForConfirmation confirm (attempt + 1) txHash
    | Except.error e =>
      if isRetryableError e then
        executeTransactionGo waitForConfirmation send confirm (attempt + 1) left
      else
        TransactionResult.failed e false

/-- execute_transaction with the attempt counter at its initial value. -/
def executeTransaction (maxRetries : Nat) (waitForConfirmation : Bool)
    (send : Nat → Except String Nat)
    (confirm : Nat → Except String (Option Nat × Nat)) : TransactionResult :=
  executeTransactionGo waitForConfirmation send confirm 0 maxRetries

end LedgerTransactionManager

namespace TransactionQueue

/-- Status of a queued transaction (src/transaction_queue.rs, enum
TransactionStatus). -/
inductive TransactionStatus where
  | pending
  | inProgress
  | success (txHash : Nat) (blockNumber : Option Nat) (gasUsed : Nat)
  | failed (error : String) (retryable : Bool)
  | skipped
deriving DecidableEq

/-- A transaction in the queue (src/transaction_queue.rs, struct
QueuedTransaction). -/
structure QueuedTransaction where
  id : Nat
  transaction : PendingTransaction
  status : TransactionStatus
  description : String
  destinationLabel : String
deriving DecidableEq

/-- update_status: sets the status of the first transaction with the given id,
leaving the queue unchanged when the id is absent. -/
def updateStatus (q : List QueuedTransaction) (id : Nat) (st : TransactionStatus) :
    List QueuedTransaction :=
  match q with
  | [] => []
  | t :: ts =>
    if t.id = id then { t with status := st } :: ts
    else t :: updateStatus ts id st

/-- get_transaction_status: status of the first transaction with the given id. -/
def getTransactionStatus (q : List QueuedTransaction) (id : Nat) :
    Option TransactionStatus :=
  (q.find? (fun t => t.id == id)).map (fun t => t.status)

/-- Predicate of execute_transaction's entry guard: the statuses from which a
transaction may be (re-)executed, Pending and Failed with retryable true. -/
def executeOneAccepts : TransactionStatus → Bool
  | TransactionStatus.pending => true
  | TransactionStatus.failed _ true => true
  | _ => false

/-- skip_transaction (src/transaction_queue.rs, lines 250-262). -/
def skipTransaction (q : List QueuedTransaction) (id : Nat) :
    List QueuedTransaction × Except String Unit :=
  match q.find? (fun t => t.id == id) with
  | none => (q, Except.error "Transaction not found")
  | some t =>
    match t.status with
    | TransactionStatus.pending => (updateStatus q id TransactionStatus.skipped, Except.ok ())
    | _ => (q, Except.error "Can only skip pending transactions")

/-- Body of the queue's execute_transaction after its entry guard: the
manager runs (so the invoked flag is true) and the status is updated from its
outcome; a manager-level error propagates leaving the status InProgress. -/
def queueExecuteTransactionRun (q1 : List QueuedTransaction) (id : Nat)
    (mres : Except String TransactionResult) :
    List QueuedTransaction × Except String Unit × Bool :=
  match mres with
  | Except.error e => (q1, Except.error e, true)
  | Except.ok (TransactionResult.success h bn gu) =>
    (updateStatus q1 id (TransactionStatus.success h bn gu), Except.ok (), true)
  | Except.ok (TransactionResult.failed err r) =>
    (updateStatus q1 id (TransactionStatus.failed err r),
     Except.error ("Transaction failed: " ++ err), true)

/-- execute_transaction of the queue (src/transaction_queue.rs, lines 158-196).
The manager's outcome is the oracle argument mres: an Except.error models the
manager call itself failing (the question-mark propagation), an Except.ok
carries the returned TransactionResult.  Returns the new queue, the function's
own result, and whether the manager was invoked. -/
def queueExecuteTransaction (q : List QueuedTransaction) (id : Nat)
    (mres : Except String TransactionResult) :
    List QueuedTransaction × Except String Unit × Bool :=
  match q.find? (fun t => t.id == id) with
  | none => (q, Except.error "Transaction not found", false)
  | some t =>
    match t.status with
    | TransactionStatus.pending =>
      queueExecuteTransactionRun (updateStatus q id TransactionStatus.inProgress) id mres
    | TransactionStatus.failed _ true =>
      queueExecuteTransactionRun (updateStatus q id TransactionStatus.inProgress) id mres
    | _ => (q, Except.error "Transaction cannot be executed in current state", false)

/-- pending_ids snapshot taken at the start of execute_all. -/
def pendingIds (q : List QueuedTransaction) : List Nat :=
  (q.filter (fun t =>
    match t.status with
    | TransactionStatus.pending => true
    | _ => false)).map (fun t => t.id)

/-- One iteration of the execute_all loop (src/transaction_queue.rs, lines
216-244) for a single id: run execute_transaction, and record either the
resulting status or, on error, overwrite the status with Failed carrying the
error text and retryable false.  The third component reports whether the
manager was invoked. -/
def executeAllStep (q : List QueuedTransaction) (id : Nat)
    (mres : Except String TransactionResult) :
    List QueuedTransaction × (Nat × TransactionStatus) × Bool :=
  match queueExecuteTransaction q id mres with
  | (q1, Except.ok _, invoked) =>
    let st := (getTransactionStatus q1 id).getD (TransactionStatus.success 0 none 0)
    (q1, (id, st), invoked)
  | (q1, Except.error e, invoked) =>
    let st := TransactionStatus.failed e false
    (updateStatus q1 id st, (id, st), invoked)

/-- The execute_all loop over a list of ids.  The oracle mres gives the
manager's outcome for the k-th processed id; interf models every other task
that may mutate the queue while execute_all sleeps or awaits, applied before
each iteration.  Returns the final queue, the per-id results, and which ids
had the manager invoked. -/
def executeAllGo (mres : Nat → Except String TransactionResult)
    (interf : Nat → List QueuedTransaction → List QueuedTransaction) :
    List Nat → Nat → List QueuedTransaction →
    List QueuedTransaction × List (Nat × TransactionStatus) × List (Nat × Bool)
  | [], _, q => (q, [], [])
  | id :: rest, k, q =>
    match executeAllStep (interf k q) id (mres k) with
    | (q1, res, invoked) =>
      match executeAllGo mres interf rest (k + 1) q1 with
      | (qf, results, invs) => (qf, res :: results, (id, invoked) :: invs)

/-- execute_all (src/transaction_queue.rs, lines 199-247): snapshot the
pending ids, then execute them in order. -/
def executeAll (q : List QueuedTransaction)
    (mres : Nat → Except String TransactionResult)
    (interf : Nat → List QueuedTransaction → List QueuedTransaction) :
    List QueuedTransaction × List (Nat × TransactionStatus) × List (Nat × Bool) :=
  executeAllGo mres interf (pendingIds q) 0 q

end TransactionQueue

namespace Balance

/-- Scan record (src/balance.rs, struct BalanceScanRecord). -/
structure BalanceScanRecord where
  index : Nat
  address : Nat
  balance : Nat
  derivationPath : String
deriving DecidableEq

/-- Scan result (src/balance.rs, struct BalanceScanResult). -/
structure BalanceScanResult where
  records : List BalanceScanRecord
  emptyAddresses : List (Nat × Nat)
  lastScannedIndex : Nat
  metTarget : Bool
  cancelled : Bool
deriving DecidableEq

/-- Loop of scan_consecutive_empty (src/balance.rs, lines 59-108).  The oracle
derive models get_ledger_address_with_retry_config, getBalance models
provider.get_balance (whose failure propagates through the question mark as an
error), and path models config.get_derivation_path.  The while loop has no
structural bound, so a fuel argument limits the modelled iterations; Except.ok
none is the out-of-fuel marker and corresponds to no return of the source. -/
def scanGo (derive : Nat → Except String Nat) (getBalance : Nat → Except String Nat)
    (path : Nat → String) (emptyTarget : Nat) :
    Nat → Nat → Nat → Nat → List (Nat × Nat) → List BalanceScanRecord →
    Except String (Option BalanceScanResult)
  | fuel, consecutiveEmpty, index, lastScanned, emptySeq, records =>
    if emptyTarget ≤ consecutiveEmpty then
      Except.ok (some
        { records := records, emptyAddresses := emptySeq,
          lastScannedIndex := lastScanned,
          metTarget := decide (emptyTarget ≤ consecutiveEmpty), cancelled := false })
    else
      match fuel with
      | 0 => Except.ok none
      | fuel + 1 =>
        match derive index with
        | Except.error _ =>
          Except.ok (some
            { records := records, emptyAddresses := emptySeq,
              lastScannedIndex := lastScanned,
              metTarget := decide (emptyTarget ≤ consecutiveEmpty), cancelled := true })
        | Except.ok addr =>
          match getBalance addr with
          | Except.error e => Except.error e
          | Except.ok bal =>
            let record : BalanceScanRecord :=
              { index := index, address := addr, balance := bal,
                derivationPath := path index }
            if bal = 0 then
              scanGo derive getBalance path emptyTarget fuel (consecutiveEmpty + 1)
                (index + 1) index (emptySeq ++ [(index, addr)]) (records ++ [record])
            else
              scanGo derive getBalance path emptyTarget fuel 0
                (index + 1) index [] (records ++ [record])

/-- scan_consecutive_empty with its initial state (consecutive_empty = 0,
last_scanned_index = start_index saturating-minus 1, empty accumulators). -/
def scanConsecutiveEmpty (derive : Nat → Except String Nat)
    (getBalance : Nat → Except String Nat) (path : Nat → String)
    (emptyTarget startIndex fuel : Nat) : Except String (Option BalanceScanResult) :=
  scanGo derive getBalance path emptyTarget fuel 0 startIndex (startIndex - 1) [] []

/-- Records gathered by the scan over the index window starting at start with
the given length, when every derivation and balance call in the window
succeeds.  Used to state which records a cancelled scan preserves. -/
def recordsRange (addr bal : Nat → Nat) (path : Nat → String) :
    Nat → Nat → List BalanceScanRecord
  | _, 0 => []
  | start, n + 1 =>
    { index := start, address := addr start, balance := bal (addr start),
      derivationPath := path start }
      :: recordsRange addr bal path (start + 1) n

/-- Value of the scan's consecutive-empty counter after processing n further
indices from the given start, beginning with counter value ce: a zero balance
increments the counter, a funded address resets it to zero, exactly as in the
loop of scan_consecutive_empty.  Used to state when the scan is still running
when it reaches a given index. -/
def emptyStreakGo (addr bal : Nat → Nat) : Nat → Nat → Nat → Nat
  | ce, _, 0 => ce
  | ce, start, n + 1 =>
    emptyStreakGo addr bal (if bal (addr start) = 0 then ce + 1 else 0) (start + 1) n

/-- The scan's consecutive-empty counter after the first n indices of a scan
window, starting from the initial counter value zero. -/
def emptyStreak (addr bal : Nat → Nat) (start n : Nat) : Nat :=
  emptyStreakGo addr bal 0 start n

end Balance

end Beaug

namespace Beaug

open SplitOperations

/-- Sum of a constant-valued map. -/
theorem list_map_const_sum {α : Type} (l : List α) (c : Nat) :
    (l.map (fun _ => c)).sum = l.length * c := by
  induction l with
  | nil => simp
  | cons a as ih => simp [ih]; ring

/-- Sum of the values of an Equal-mode plan: every value is the computed
per-receiver amount, so the sum is the receiver count times that amount. -/
theorem prepareEqual_value_sum (receivers : List AccountInfo)
    (v gasLimit gasPrice : Nat) (operationName : String) :
    ((receivers.enum.map (fun p =>
        ({ toAddr := p.2.address, value := v, gasLimit := gasLimit, gasPrice := gasPrice,
           operationName := operationName ++ "_equal_" ++ toString p.1 }
          : PendingTransaction))).map (fun t => t.value)).sum
      = receivers.length * v := by
  rw [List.map_map]
  have h : ((fun t : PendingTransaction => t.value) ∘ (fun p : Nat × AccountInfo =>
      ({ toAddr := p.2.address, value := v, gasLimit := gasLimit, gasPrice := gasPrice,
         operationName := operationName ++ "_equal_" ++ toString p.1 }
        : PendingTransaction)))
      = (fun _ => v) := rfl
  rw [h, list_map_const_sum, List.enum_length]

/-- Invariant of the random-split loop: the planned values plus the reserved
balance plus one fee per planned transaction never exceed the running
balance, provided the running balance still covers the reserve. -/
theorem prepareRandomGo_sum_le (draws : Nat → Nat → Nat)
    (minTransfer txFee gasLimit gasPrice : Nat) (operationName : String)
    (remainingBalanceWei totalReceivers : Nat)
    (hdraws : ∀ i r, draws i r ≤ r) :
    ∀ (receivers : List AccountInfo) (i currentBalance : Nat),
      totalReceivers = i + receivers.length →
      remainingBalanceWei ≤ currentBalance →
      ((prepareRandomGo draws minTransfer txFee gasLimit gasPrice operationName
          remainingBalanceWei totalReceivers receivers i currentBalance).map
            (fun t => t.value)).sum
        + remainingBalanceWei
        + txFee * (prepareRandomGo draws minTransfer txFee gasLimit gasPrice operationName
            remainingBalanceWei totalReceivers receivers i currentBalance).length
        ≤ currentBalance := by
  intro receivers
  induction receivers with
  | nil =>
    intro i cur _ hrem
    simpa [prepareRandomGo] using hrem
  | cons receiver rest ih =>
    intro i cur htot hrem
    simp only [prepareRandomGo]
    split
    · rename_i hbreak
      simpa using hrem
    · rename_i hbreak
      split
      · rename_i hlast
        have hrest : rest = [] := by
          have : rest.length = 0 := by
            simp only [List.length_cons] at htot
            omega
          exact List.length_eq_zero.mp this
        split
        · rename_i hfin
          subst hrest
          simp only [prepareRandomGo, List.map_cons, List.map_nil, List.sum_cons,
            List.sum_nil, List.length_cons, List.length_nil]
          omega
        · simpa using hrem
      · rename_i hlast
        split
        · rename_i hsmall
          simpa using hrem
        · rename_i hsmall
          simp only [List.map_cons, List.sum_cons, List.length_cons, Nat.mul_succ]
          have hrr : 1 ≤ totalReceivers - i := by
            simp only [List.length_cons] at htot
            omega
          have hdr := hdraws i
            ((cur - (remainingBalanceWei + txFee * (totalReceivers - i))) / (totalReceivers - i)
              - minTransfer)
          have hms : (cur - (remainingBalanceWei + txFee * (totalReceivers - i)))
              / (totalReceivers - i)
              ≤ cur - (remainingBalanceWei + txFee * (totalReceivers - i)) :=
            Nat.div_le_self _ _
          have hfee : txFee * 1 ≤ txFee * (totalReceivers - i) :=
            Nat.mul_le_mul_left txFee hrr
          have htot2 : totalReceivers = (i + 1) + rest.length := by
            simp only [List.length_cons] at htot
            omega
          have hrem2 : remainingBalanceWei
              ≤ cur - (minTransfer
                  + draws i ((cur - (remainingBalanceWei + txFee * (totalReceivers - i)))
                      / (totalReceivers - i) - minTransfer)
                  + txFee) := by
            omega
          have := ih (i + 1)
            (cur - (minTransfer
              + draws i ((cur - (remainingBalanceWei + txFee * (totalReceivers - i)))
                  / (totalReceivers - i) - minTransfer)
              + txFee)) htot2 hrem2
          omega

/-- C1: for every plan accepted by the planner, in Equal or Random mode, the
sum of the planned amounts plus remainingBalanceToKeep plus the
per-transaction fee times the number of planned transactions is at most the
source balance.  The random draws are constrained only by the contract of the
random number generator (a draw never exceeds its range). -/
theorem claim_C1 (draws : Nat → Nat → Nat) (receivers : List AccountInfo)
    (sourceBalance minTransfer txFee gasLimit gasPrice remainingBalanceWei : Nat)
    (operationName : String)
    (hdraws : ∀ i r, draws i r ≤ r) (hrem : remainingBalanceWei < sourceBalance) :
    (((SplitOperations.prepareRandomTransactions draws receivers sourceBalance minTransfer
          txFee gasLimit gasPrice operationName remainingBalanceWei).map
            (fun t => t.value)).sum
        + remainingBalanceWei
        + txFee * (SplitOperations.prepareRandomTransactions draws receivers sourceBalance
            minTransfer txFee gasLimit gasPrice operationName remainingBalanceWei).length
      ≤ sourceBalance)
    ∧ (∀ txs, SplitOperations.prepareEqualTransactions receivers sourceBalance minTransfer
          txFee gasLimit gasPrice operationName remainingBalanceWei = Except.ok txs →
        (txs.map (fun t => t.value)).sum + remainingBalanceWei + txFee * txs.length
          ≤ sourceBalance) := by
  constructor
  · exact prepareRandomGo_sum_le draws minTransfer txFee gasLimit gasPrice operationName
      remainingBalanceWei receivers.length hdraws receivers 0 sourceBalance (by simp)
      (Nat.le_of_lt hrem)
  · intro txs hok
    simp only [prepareEqualTransactions] at hok
    split at hok
    · exact absurd hok (by simp)
    · rename_i hgt
      split at hok
      · exact absurd hok (by simp)
      · rename_i hmin
        have htxs := (Except.ok.injEq _ _).mp hok
        subst htxs
        have hlen : (receivers.enum.map (fun p =>
            ({ toAddr := p.2.address,
               value := (sourceBalance - remainingBalanceWei - txFee * receivers.length)
                 / receivers.length,
               gasLimit := gasLimit, gasPrice := gasPrice,
               operationName := operationName ++ "_equal_" ++ toString p.1 }
              : PendingTransaction))).length = receivers.length := by
          simp [List.enum_length]
        rw [hlen, prepareEqual_value_sum]
        have hdm : receivers.length
            * ((sourceBalance - remainingBalanceWei - txFee * receivers.length)
                / receivers.length)
            ≤ sourceBalance - remainingBalanceWei - txFee * receivers.length :=
          Nat.mul_div_le _ _
        omega

/-- Witness for C1 at a concrete input: two receivers, source balance 100,
minimum transfer 5, fee 1, reserved balance 3 (the planned values are 7 and
88, summing with reserve and fees to exactly 100). -/
theorem claim_C1_witness :
    (∀ i r : Nat, (fun _ _ => 0 : Nat → Nat → Nat) i r ≤ r)
    ∧ (3 : Nat) < 100
    ∧ ((((SplitOperations.prepareRandomTransactions (fun _ _ => 0)
            [⟨1, 11, 0, 0, "p1"⟩, ⟨2, 12, 0, 0, "p2"⟩] 100 5 1 21000 1
            "SplitFundsRandom" 3).map (fun t => t.value)).sum
          + 3
          + 1 * (SplitOperations.prepareRandomTransactions (fun _ _ => 0)
              [⟨1, 11, 0, 0, "p1"⟩, ⟨2, 12, 0, 0, "p2"⟩] 100 5 1 21000 1
              "SplitFundsRandom" 3).length
        ≤ 100)
      ∧ (∀ txs, SplitOperations.prepareEqualTransactions
            [⟨1, 11, 0, 0, "p1"⟩, ⟨2, 12, 0, 0, "p2"⟩] 100 5 1 21000 1
            "SplitFundsRandom" 3 = Except.ok txs →
          (txs.map (fun t => t.value)).sum + 3 + 1 * txs.length ≤ 100)) :=
  ⟨fun _ r => Nat.zero_le r, by decide,
   claim_C1 (fun _ _ => 0) [⟨1, 11, 0, 0, "p1"⟩, ⟨2, 12, 0, 0, "p2"⟩]
     100 5 1 21000 1 3 "SplitFundsRandom" (fun _ r => Nat.zero_le r) (by decide)⟩

/-- C7: in every accepted Equal-mode plan all planned amounts are identical
and equal the integer quotient of the distributable balance by the receiver
count; the division remainder is strictly less than the receiver count and
stays on the source, as the exact accounting equation shows. -/
theorem claim_C7 (receivers : List AccountInfo)
    (sourceBalance minTransfer txFee gasLimit gasPrice remainingBalanceWei : Nat)
    (operationName : String) (txs : List PendingTransaction)
    (hok : SplitOperations.prepareEqualTransactions receivers sourceBalance minTransfer
      txFee gasLimit gasPrice operationName remainingBalanceWei = Except.ok txs)
    (hne : receivers ≠ []) :
    txs.length = receivers.length
    ∧ (∀ t ∈ txs, t.value
        = (sourceBalance - remainingBalanceWei - txFee * receivers.length)
            / receivers.length)
    ∧ (sourceBalance - remainingBalanceWei - txFee * receivers.length) % receivers.length
        < receivers.length
    ∧ (txs.map (fun t => t.value)).sum
        + (sourceBalance - remainingBalanceWei - txFee * receivers.length)
            % receivers.length
        + remainingBalanceWei + txFee * receivers.length
      = sourceBalance := by
  have hpos : 0 < receivers.length := List.length_pos.mpr hne
  simp only [SplitOperations.prepareEqualTransactions] at hok
  split at hok
  · exact absurd hok (by simp)
  · rename_i hgt
    split at hok
    · exact absurd hok (by simp)
    · rename_i hmin
      have htxs := (Except.ok.injEq _ _).mp hok
      subst htxs
      refine ⟨by simp [List.enum_length], ?_, Nat.mod_lt _ hpos, ?_⟩
      · intro t ht
        simp only [List.mem_map] at ht
        obtain ⟨p, hp, rfl⟩ := ht
        rfl
      · rw [prepareEqual_value_sum]
        have hdm := Nat.div_add_mod
          (sourceBalance - remainingBalanceWei - txFee * receivers.length) receivers.length
        omega

/-- Witness for C7 at a concrete input: three receivers, source 100, fee 3,
reserve 1, giving three equal transfers of 30 and remainder 0. -/
theorem claim_C7_witness :
    SplitOperations.prepareEqualTransactions
        [⟨1, 11, 0, 0, "p1"⟩, ⟨2, 12, 0, 0, "p2"⟩, ⟨3, 13, 0, 0, "p3"⟩]
        100 2 3 21000 1 "SplitFundsEqual" 1
      = Except.ok
          [⟨11, 30, 21000, 1, "SplitFundsEqual_equal_0"⟩,
           ⟨12, 30, 21000, 1, "SplitFundsEqual_equal_1"⟩,
           ⟨13, 30, 21000, 1, "SplitFundsEqual_equal_2"⟩]
    ∧ ([⟨1, 11, 0, 0, "p1"⟩, ⟨2, 12, 0, 0, "p2"⟩, ⟨3, 13, 0, 0, "p3"⟩]
        : List AccountInfo) ≠ []
    ∧ (([⟨11, 30, 21000, 1, "SplitFundsEqual_equal_0"⟩,
         ⟨12, 30, 21000, 1, "SplitFundsEqual_equal_1"⟩,
         ⟨13, 30, 21000, 1, "SplitFundsEqual_equal_2"⟩]
          : List PendingTransaction).length
        = ([⟨1, 11, 0, 0, "p1"⟩, ⟨2, 12, 0, 0, "p2"⟩, ⟨3, 13, 0, 0, "p3"⟩]
            : List AccountInfo).length
      ∧ (∀ t ∈ ([⟨11, 30, 21000, 1, "SplitFundsEqual_equal_0"⟩,
           ⟨12, 30, 21000, 1, "SplitFundsEqual_equal_1"⟩,
           ⟨13, 30, 21000, 1, "SplitFundsEqual_equal_2"⟩] : List PendingTransaction),
          t.value = (100 - 1 - 3 * ([⟨1, 11, 0, 0, "p1"⟩, ⟨2, 12, 0, 0, "p2"⟩,
            ⟨3, 13, 0, 0, "p3"⟩] : List AccountInfo).length)
              / ([⟨1, 11, 0, 0, "p1"⟩, ⟨2, 12, 0, 0, "p2"⟩,
                  ⟨3, 13, 0, 0, "p3"⟩] : List AccountInfo).length)
      ∧ (100 - 1 - 3 * ([⟨1, 11, 0, 0, "p1"⟩, ⟨2, 12, 0, 0, "p2"⟩,
            ⟨3, 13, 0, 0, "p3"⟩] : List AccountInfo).length)
            % ([⟨1, 11, 0, 0, "p1"⟩, ⟨2, 12, 0, 0, "p2"⟩,
                ⟨3, 13, 0, 0, "p3"⟩] : List AccountInfo).length
          < ([⟨1, 11, 0, 0, "p1"⟩, ⟨2, 12, 0, 0, "p2"⟩,
              ⟨3, 13, 0, 0, "p3"⟩] : List AccountInfo).length
      ∧ (([⟨11, 30, 21000, 1, "SplitFundsEqual_equal_0"⟩,
           ⟨12, 30, 21000, 1, "SplitFundsEqual_equal_1"⟩,
           ⟨13, 30, 21000, 1, "SplitFundsEqual_equal_2"⟩]
            : List PendingTransaction).map (fun t => t.value)).sum
          + (100 - 1 - 3 * ([⟨1, 11, 0, 0, "p1"⟩, ⟨2, 12, 0, 0, "p2"⟩,
              ⟨3, 13, 0, 0, "p3"⟩] : List AccountInfo).length)
              % ([⟨1, 11, 0, 0, "p1"⟩, ⟨2, 12, 0, 0, "p2"⟩,
                  ⟨3, 13, 0, 0, "p3"⟩] : List AccountInfo).length
          + 1 + 3 * ([⟨1, 11, 0, 0, "p1"⟩, ⟨2, 12, 0, 0, "p2"⟩,
              ⟨3, 13, 0, 0, "p3"⟩] : List AccountInfo).length
        = 100) :=
  ⟨rfl, by decide,
   claim_C7 [⟨1, 11, 0, 0, "p1"⟩, ⟨2, 12, 0, 0, "p2"⟩, ⟨3, 13, 0, 0, "p3"⟩]
     100 2 3 21000 1 1 "SplitFundsEqual"
     [⟨11, 30, 21000, 1, "SplitFundsEqual_equal_0"⟩,
      ⟨12, 30, 21000, 1, "SplitFundsEqual_equal_1"⟩,
      ⟨13, 30, 21000, 1, "SplitFundsEqual_equal_2"⟩] rfl (by decide)⟩

/-- Every transaction planned by the random-split loop has a value of at
least the minimum transfer amount, in both the deterministic last branch and
the randomized branch. -/
theorem prepareRandomGo_min_le (draws : Nat → Nat → Nat)
    (minTransfer txFee gasLimit gasPrice : Nat) (operationName : String)
    (remainingBalanceWei totalReceivers : Nat) :
    ∀ (receivers : List AccountInfo) (i currentBalance : Nat),
      ∀ t ∈ prepareRandomGo draws minTransfer txFee gasLimit gasPrice operationName
          remainingBalanceWei totalReceivers receivers i currentBalance,
        minTransfer ≤ t.value := by
  intro receivers
  induction receivers with
  | nil =>
    intro i cur t ht
    simp [prepareRandomGo] at ht
  | cons receiver rest ih =>
    intro i cur t ht
    simp only [prepareRandomGo] at ht
    split at ht
    · simp at ht
    · split at ht
      · split at ht
        · rename_i hbreak hlast hfin
          rcases List.mem_cons.mp ht with h | h
          · subst h
            simp only
            omega
          · exact ih _ _ _ h
        · simp at ht
      · split at ht
        · simp at ht
        · rcases List.mem_cons.mp ht with h | h
          · subst h
            simp only
            exact Nat.le_add_right _ _
          · exact ih _ _ _ h

/-- C8: every amount in an accepted plan, Equal or Random, is at least the
minimum transfer amount, which prepare_split_transactions sets to five times
the base per-transaction fee (the unmultiplied oracle gas price times the
21000 gas limit). -/
theorem claim_C8 (draws : Nat → Nat → Nat) (receivers : List AccountInfo)
    (sourceBalance gasPrice gasSpeedBp remainingBalanceWei : Nat)
    (operationName : String) :
    (∀ t ∈ SplitOperations.prepareRandomTransactions draws receivers sourceBalance
        (SplitOperations.minTransferOf gasPrice)
        (SplitOperations.txFeeOf gasPrice gasSpeedBp)
        SplitOperations.splitGasLimit
        (SplitOperations.effectiveGasPriceOf gasPrice gasSpeedBp)
        operationName remainingBalanceWei,
      SplitOperations.minTransferOf gasPrice ≤ t.value)
    ∧ (∀ txs, SplitOperations.prepareEqualTransactions receivers sourceBalance
          (SplitOperations.minTransferOf gasPrice)
          (SplitOperations.txFeeOf gasPrice gasSpeedBp)
          SplitOperations.splitGasLimit
          (SplitOperations.effectiveGasPriceOf gasPrice gasSpeedBp)
          operationName remainingBalanceWei = Except.ok txs →
        ∀ t ∈ txs, SplitOperations.minTransferOf gasPrice ≤ t.value) := by
  constructor
  · intro t ht
    simp only [SplitOperations.prepareRandomTransactions] at ht
    exact prepareRandomGo_min_le draws _ _ _ _ operationName _ _ receivers 0 sourceBalance
      t ht
  · intro txs hok t ht
    simp only [SplitOperations.prepareEqualTransactions] at hok
    split at hok
    · exact absurd hok (by simp)
    · split at hok
      · exact absurd hok (by simp)
      · rename_i hmin
        have htxs := (Except.ok.injEq _ _).mp hok
        subst htxs
        simp only [List.mem_map] at ht
        obtain ⟨p, hp, rfl⟩ := ht
        simpa using Nat.le_of_not_lt hmin

/-- Witness for C8 at a concrete input: gas price 1, speed multiplier 100
basis points, one receiver, source 1000000; the single planned value 979000
is at least the minimum 105000. -/
theorem claim_C8_witness :
    (⟨11, 979000, 21000, 1, "SplitFundsRandom_to_1"⟩ : PendingTransaction)
      ∈ SplitOperations.prepareRandomTransactions (fun _ _ => 0)
          [⟨1, 11, 0, 0, "p1"⟩] 1000000 (SplitOperations.minTransferOf 1)
          (SplitOperations.txFeeOf 1 100) SplitOperations.splitGasLimit
          (SplitOperations.effectiveGasPriceOf 1 100) "SplitFundsRandom" 0
    ∧ SplitOperations.minTransferOf 1
        ≤ (⟨11, 979000, 21000, 1, "SplitFundsRandom_to_1"⟩ : PendingTransaction).value :=
  ⟨by decide,
   (claim_C8 (fun _ _ => 0) [⟨1, 11, 0, 0, "p1"⟩] 1000000 1 100 0 "SplitFundsRandom").1
     ⟨11, 979000, 21000, 1, "SplitFundsRandom_to_1"⟩ (by decide)⟩

/-- When the random-split loop plans a transaction for every remaining
receiver (no early stop), the last planned value is exactly the running
balance at its step minus the reserved balance minus the fee. -/
theorem prepareRandomGo_last (draws : Nat → Nat → Nat)
    (minTransfer txFee gasLimit gasPrice : Nat) (operationName : String)
    (remainingBalanceWei totalReceivers : Nat) :
    ∀ (receivers : List AccountInfo) (i currentBalance : Nat)
      (txs : List PendingTransaction),
      totalReceivers = i + receivers.length →
      prepareRandomGo draws minTransfer txFee gasLimit gasPrice operationName
          remainingBalanceWei totalReceivers receivers i currentBalance = txs →
      txs.length = receivers.length →
      ∀ t, txs.getLast? = some t →
        t.value = currentBalance
          - ((txs.dropLast.map (fun u => u.value + txFee)).sum)
          - remainingBalanceWei - txFee := by
  intro receivers
  induction receivers with
  | nil =>
    intro i cur txs _ hgo hlen t hlast
    simp only [prepareRandomGo] at hgo
    subst hgo
    simp at hlast
  | cons receiver rest ih =>
    intro i cur txs htot hgo hlen t hlast
    simp only [prepareRandomGo] at hgo
    split at hgo
    · subst hgo
      simp at hlen
    · split at hgo
      · rename_i hbreak hrr
        split at hgo
        · rename_i hfin
          have hrest : rest = [] := by
            apply List.length_eq_zero.mp
            simp only [List.length_cons] at htot
            omega
          subst hrest
          simp only [prepareRandomGo] at hgo
          subst hgo
          simp only [List.getLast?_singleton, Option.some.injEq] at hlast
          subst hlast
          simp only [List.dropLast_single, List.map_nil, List.sum_nil]
          omega
        · subst hgo
          simp at hlen
      · rename_i hbreak hrr
        split at hgo
        · subst hgo
          simp at hlen
        · rename_i hsmall
          subst hgo
          simp only [List.length_cons, Nat.add_right_cancel_iff] at hlen
          have htot2 : totalReceivers = (i + 1) + rest.length := by
            simp only [List.length_cons] at htot
            omega
          cases htx : prepareRandomGo draws minTransfer txFee gasLimit gasPrice
              operationName remainingBalanceWei totalReceivers rest (i + 1)
              (cur - (minTransfer
                + draws i ((cur - (remainingBalanceWei
                    + txFee * (totalReceivers - i))) / (totalReceivers - i) - minTransfer)
                + txFee)) with
          | nil =>
            exfalso
            rw [htx] at hlen
            have : rest ≠ [] := by
              intro h
              subst h
              simp only [List.length_cons, List.length_nil] at htot
              omega
            cases rest with
            | nil => exact this rfl
            | cons b l2 => simp at hlen
          | cons b l2 =>
            rw [htx] at hlast
            rw [List.getLast?_cons_cons] at hlast
            have hlen2 : (b :: l2).length = rest.length := by
              rw [htx] at hlen
              exact hlen
            have hih := ih (i + 1)
              (cur - (minTransfer
                + draws i ((cur - (remainingBalanceWei
                    + txFee * (totalReceivers - i))) / (totalReceivers - i) - minTransfer)
                + txFee)) (b :: l2) htot2 htx hlen2 t hlast
            rw [List.dropLast_cons₂]
            simp only [List.map_cons, List.sum_cons]
            omega

/-- C6, amended: in every Random-mode plan that plans as many transactions as
there are receivers (no early stop), the amount of the last planned
transaction equals the running balance at that step (the source balance minus
every earlier amount and its fee) minus remainingBalanceToKeep minus the
per-transaction fee, exactly.  When the loop stops early, the last planned
amount comes from the randomized branch instead (see the counterexample). -/
theorem claim_C6 (draws : Nat → Nat → Nat) (receivers : List AccountInfo)
    (sourceBalance minTransfer txFee gasLimit gasPrice remainingBalanceWei : Nat)
    (operationName : String)
    (hfull : (SplitOperations.prepareRandomTransactions draws receivers sourceBalance
        minTransfer txFee gasLimit gasPrice operationName remainingBalanceWei).length
      = receivers.length) :
    ∀ t, (SplitOperations.prepareRandomTransactions draws receivers sourceBalance
        minTransfer txFee gasLimit gasPrice operationName remainingBalanceWei).getLast?
        = some t →
      t.value = sourceBalance
        - (((SplitOperations.prepareRandomTransactions draws receivers sourceBalance
            minTransfer txFee gasLimit gasPrice operationName
            remainingBalanceWei).dropLast.map (fun u => u.value + txFee)).sum)
        - remainingBalanceWei - txFee :=
  fun t hlast =>
    prepareRandomGo_last draws minTransfer txFee gasLimit gasPrice operationName
      remainingBalanceWei receivers.length receivers 0 sourceBalance _
      (Nat.zero_add receivers.length).symm rfl hfull t hlast

/-- C6 counterexample: a Random-mode request that the planner accepts (two
receivers, source 10, minimum transfer 5, zero fee, zero reserve, the draw
oracle always within range) stops planning early, and the last planned
amount, 5, was produced by the randomized branch; the running balance at that
step minus the reserve minus the fee is 10, not 5.  So the claim as stated is
false. -/
theorem claim_C6_counterexample :
    (SplitOperations.prepareRandomTransactions (fun _ _ => 0)
        [⟨1, 11, 0, 0, "p1"⟩, ⟨2, 12, 0, 0, "p2"⟩] 10 5 0 21000 1
        "SplitFundsRandom" 0).map (fun t => t.value) = [5]
    ∧ ((SplitOperations.prepareRandomTransactions (fun _ _ => 0)
        [⟨1, 11, 0, 0, "p1"⟩, ⟨2, 12, 0, 0, "p2"⟩] 10 5 0 21000 1
        "SplitFundsRandom" 0).getLast?).map (fun t => t.value) = some 5
    ∧ (10 : Nat) - 0 - 0 ≠ 5 := by decide

/-- Witness for C6 at a concrete input: a full two-transaction plan with
values 7 and 88; the last value 88 equals 100 minus the earlier amount plus
fee (8) minus the reserve 3 minus the fee 1. -/
theorem claim_C6_witness :
    (SplitOperations.prepareRandomTransactions (fun _ _ => 2)
        [⟨1, 11, 0, 0, "p1"⟩, ⟨2, 12, 0, 0, "p2"⟩] 100 5 1 21000 1
        "SplitFundsRandom" 3).length
      = ([⟨1, 11, 0, 0, "p1"⟩, ⟨2, 12, 0, 0, "p2"⟩] : List AccountInfo).length
    ∧ (⟨12, 88, 21000, 1, "SplitFundsRandom_to_2"⟩ : PendingTransaction).value
        = 100 - (((SplitOperations.prepareRandomTransactions (fun _ _ => 2)
            [⟨1, 11, 0, 0, "p1"⟩, ⟨2, 12, 0, 0, "p2"⟩] 100 5 1 21000 1
            "SplitFundsRandom" 3).dropLast.map (fun u => u.value + 1)).sum)
          - 3 - 1 :=
  ⟨by decide,
   claim_C6 (fun _ _ => 2) [⟨1, 11, 0, 0, "p1"⟩, ⟨2, 12, 0, 0, "p2"⟩]
     100 5 1 21000 1 3 "SplitFundsRandom" (by decide)
     ⟨12, 88, 21000, 1, "SplitFundsRandom_to_2"⟩ (by decide)⟩

open LedgerTransactionManager

/-- Shifting the fetch oracle by one call commutes with the tracked-nonce
recurrence. -/
theorem trackedNonce_shift (f : Nat → Nat) (c0 : Nat) :
    ∀ i, trackedNonce (fun j => f (j + 1)) (max c0 (f 0) + 1) i
      = trackedNonce f c0 (i + 1) := by
  intro i
  induction i with
  | zero => rfl
  | succ i ihi => simp [trackedNonce, ihi]

/-- The sequence of assigned nonces: the call with index i returns the
maximum of the tracked cell before that call and the count it fetched. -/
theorem nonceCalls_eq_map (f : Nat → Nat) (c0 : Nat) :
    ∀ k, nonceCalls f k (some c0)
      = (List.range k).map (fun i => max (trackedNonce f c0 i) (f i)) := by
  intro k
  induction k generalizing f c0 with
  | zero => simp [nonceCalls]
  | succ k ihk =>
    rw [List.range_succ_eq_map, List.map_cons, List.map_map]
    show max c0 (f 0) :: nonceCalls (fun i => f (i + 1)) k (some (max c0 (f 0) + 1))
      = max (trackedNonce f c0 0) (f 0) :: (List.range k).map
          ((fun i => max (trackedNonce f c0 i) (f i)) ∘ Nat.succ)
    rw [ihk (fun i => f (i + 1)) (max c0 (f 0) + 1)]
    congr 1
    apply List.map_congr_left
    intro i _
    simp only [Function.comp_apply]
    rw [trackedNonce_shift]

/-- A function with strictly increasing consecutive values maps the range
list to a strictly increasing chain. -/
theorem chain_lt_map_range :
    ∀ (k : Nat) (g : Nat → Nat), (∀ i, g i < g (i + 1)) →
      List.Chain' (fun a b => a < b) ((List.range k).map g) := by
  intro k
  induction k with
  | zero =>
    intro g _
    simp
  | succ k ihk =>
    intro g hg
    rw [List.range_succ_eq_map, List.map_cons, List.map_map]
    rw [List.chain'_cons']
    constructor
    · intro b hb
      cases k with
      | zero => simp at hb
      | succ k2 =>
        rw [List.range_succ_eq_map] at hb
        simp only [List.map_cons, List.head?_cons, Option.mem_def,
          Option.some.injEq, Function.comp_apply] at hb
        subst hb
        exact hg 0
    · exact ihk (g ∘ Nat.succ) (fun i => hg (i + 1))

/-- With a constant fetch oracle, the tracked cell advances by one per call. -/
theorem trackedNonce_const (c0 : Nat) (f : Nat → Nat) (hf : ∀ i, f i = c0) :
    ∀ i, trackedNonce f c0 i = c0 + i := by
  intro i
  induction i with
  | zero => rfl
  | succ i ihi =>
    simp only [trackedNonce, ihi, hf]
    omega

/-- C2: starting from a manager initialized with on-chain count c0, any k
sequential get_next_nonce calls return exactly k nonces, each equal to the
maximum of the locally tracked next nonce and the freshly fetched on-chain
count, forming a strictly increasing sequence; and when the on-chain count
stays c0 throughout, the returned nonces are exactly c0, c0 + 1, ..., so the
first returned nonce is the count at initialization. -/
theorem claim_C2 (f : Nat → Nat) (c0 k : Nat) :
    (LedgerTransactionManager.nonceCalls f k (some c0)).length = k
    ∧ LedgerTransactionManager.nonceCalls f k (some c0)
        = (List.range k).map
            (fun i => max (LedgerTransactionManager.trackedNonce f c0 i) (f i))
    ∧ List.Chain' (fun a b => a < b) (LedgerTransactionManager.nonceCalls f k (some c0))
    ∧ ((∀ i, f i = c0) →
        LedgerTransactionManager.nonceCalls f k (some c0) = List.range' c0 k) := by
  refine ⟨?_, nonceCalls_eq_map f c0 k, ?_, ?_⟩
  · rw [nonceCalls_eq_map]
    simp
  · rw [nonceCalls_eq_map]
    apply chain_lt_map_range
    intro i
    have h1 : trackedNonce f c0 (i + 1) = max (trackedNonce f c0 i) (f i) + 1 := rfl
    have h2 : trackedNonce f c0 (i + 1) ≤ max (trackedNonce f c0 (i + 1)) (f (i + 1)) :=
      Nat.le_max_left _ _
    omega
  · intro hf
    rw [nonceCalls_eq_map, List.range'_eq_map_range]
    apply List.map_congr_left
    intro i _
    rw [trackedNonce_const c0 f hf i, hf i]
    simp [Nat.max_eq_left (Nat.le_add_right c0 i)]

/-- Witness for C2 at a concrete input: with the on-chain count fixed at 4,
three calls return 4, 5, 6. -/
theorem claim_C2_witness :
    LedgerTransactionManager.nonceCalls (fun _ => 4) 3 (some 4) = List.range' 4 3 :=
  (claim_C2 (fun _ => 4) 4 3).2.2.2 (fun _ => rfl)

/-- C9: an error string containing "denied" or "rejected" is classified
retryable = false, and execute_transaction returns a terminal Failed result
from the first failing attempt, even when retry attempts remain under the
configured maximum. -/
theorem claim_C9 (e : String)
    (h : LedgerTransactionManager.strContains e "denied" = true
      ∨ LedgerTransactionManager.strContains e "rejected" = true) :
    LedgerTransactionManager.isRetryableError e = false
    ∧ ∀ (maxRetries : Nat) (waitForConfirmation : Bool)
        (send : Nat → Except String Nat)
        (confirm : Nat → Except String (Option Nat × Nat)),
        send 1 = Except.error e →
        LedgerTransactionManager.executeTransaction maxRetries waitForConfirmation
            send confirm
          = TransactionResult.failed e false := by
  have hret : isRetryableError e = false := by
    rcases h with h | h <;> simp [isRetryableError, h]
  refine ⟨hret, ?_⟩
  intro maxRetries wc send confirm hsend
  cases maxRetries with
  | zero => simp [executeTransaction, executeTransactionGo, hsend, hret]
  | succ m => simp [executeTransaction, executeTransactionGo, hsend, hret]

/-- Witness for C9 at a concrete input: the error "user denied the request"
is terminal on attempt 1 even with 5 retries allowed, although a second
attempt would have succeeded. -/
theorem claim_C9_witness :
    LedgerTransactionManager.isRetryableError "user denied the request" = false
    ∧ LedgerTransactionManager.executeTransaction 5 false
        (fun a => if a = 1 then Except.error "user denied the request" else Except.ok 7)
        (fun _ => Except.ok (none, 0))
      = TransactionResult.failed "user denied the request" false :=
  ⟨(claim_C9 "user denied the request" (Or.inl (by decide))).1,
   (claim_C9 "user denied the request" (Or.inl (by decide))).2 5 false
     (fun a => if a = 1 then Except.error "user denied the request" else Except.ok 7)
     (fun _ => Except.ok (none, 0)) rfl⟩

/-- C5 counterexample: the error string "mystery glitch 42" matches none of
the specific failure classes of the taxonomy (it contains none of the
recognized substrings), yet is_retryable_error classifies it as retryable =
false, and execute_transaction returns a terminal failure from attempt 1 even
though retries remain: with the given oracle a retry would have succeeded, so
the terminal Failed result shows no retry happened.  The claim as stated is
therefore false. -/
theorem claim_C5_counterexample :
    LedgerTransactionManager.isRetryableError "mystery glitch 42" = false
    ∧ LedgerTransactionManager.executeTransaction 2 false
        (fun a => if a = 1 then Except.error "mystery glitch 42" else Except.ok 7)
        (fun _ => Except.ok (none, 0))
      = TransactionResult.failed "mystery glitch 42" false := by
  constructor
  · decide
  · decide

/-- C5, amended: an error string containing none of the transient-signal
substrings recognized by is_retryable_error (timeout, network, connection,
temporarily, rate limit, hidapi, the overlapped-I/O message, bad response) is
classified retryable = false — the default for an unknown error is
non-retryable, not retryable — and execute_transaction returns a terminal
Failed result from the first failing attempt even when retry attempts
remain. -/
theorem claim_C5 (e : String)
    (h1 : LedgerTransactionManager.strContains e "timeout" = false)
    (h2 : LedgerTransactionManager.strContains e "network" = false)
    (h3 : LedgerTransactionManager.strContains e "connection" = false)
    (h4 : LedgerTransactionManager.strContains e "temporarily" = false)
    (h5 : LedgerTransactionManager.strContains e "rate limit" = false)
    (h6 : LedgerTransactionManager.strContains e "hidapi" = false)
    (h7 : LedgerTransactionManager.strContains e
        "Overlapped I/O operation is in progress" = false)
    (h8 : LedgerTransactionManager.strContains e "bad response" = false) :
    LedgerTransactionManager.isRetryableError e = false
    ∧ ∀ (maxRetries : Nat) (waitForConfirmation : Bool)
        (send : Nat → Except String Nat)
        (confirm : Nat → Except String (Option Nat × Nat)),
        send 1 = Except.error e →
        LedgerTransactionManager.executeTransaction maxRetries waitForConfirmation
            send confirm
          = TransactionResult.failed e false := by
  have hret : isRetryableError e = false := by
    simp [isRetryableError, h1, h2, h3, h4, h5, h6, h7, h8]
  refine ⟨hret, ?_⟩
  intro maxRetries wc send confirm hsend
  cases maxRetries with
  | zero => simp [executeTransaction, executeTransactionGo, hsend, hret]
  | succ m => simp [executeTransaction, executeTransactionGo, hsend, hret]

/-- Witness for C5 at a concrete input: the unknown error "strange failure 7"
is terminal on attempt 1 with 3 retries allowed. -/
theorem claim_C5_witness :
    LedgerTransactionManager.strContains "strange failure 7" "timeout" = false
    ∧ LedgerTransactionManager.strContains "strange failure 7" "network" = false
    ∧ LedgerTransactionManager.strContains "strange failure 7" "connection" = false
    ∧ LedgerTransactionManager.strContains "strange failure 7" "temporarily" = false
    ∧ LedgerTransactionManager.strContains "strange failure 7" "rate limit" = false
    ∧ LedgerTransactionManager.strContains "strange failure 7" "hidapi" = false
    ∧ LedgerTransactionManager.strContains "strange failure 7"
        "Overlapped I/O operation is in progress" = false
    ∧ LedgerTransactionManager.strContains "strange failure 7" "bad response" = false
    ∧ LedgerTransactionManager.isRetryableError "strange failure 7" = false
    ∧ LedgerTransactionManager.executeTransaction 3 true
        (fun a => if a = 1 then Except.error "strange failure 7" else Except.ok 9)
        (fun _ => Except.ok (some 12, 100))
      = TransactionResult.failed "strange failure 7" false :=
  ⟨by decide, by decide, by decide, by decide, by decide, by decide, by decide, by decide,
   (claim_C5 "strange failure 7" (by decide) (by decide) (by decide) (by decide)
     (by decide) (by decide) (by decide) (by decide)).1,
   (claim_C5 "strange failure 7" (by decide) (by decide) (by decide) (by decide)
     (by decide) (by decide) (by decide) (by decide)).2 3 true
     (fun a => if a = 1 then Except.error "strange failure 7" else Except.ok 9)
     (fun _ => Except.ok (some 12, 100)) rfl⟩

open TransactionQueue

/-- Reading a status from a non-empty queue: the head answers when its id
matches, otherwise the tail is searched. -/
theorem getTransactionStatus_cons (t : QueuedTransaction)
    (ts : List QueuedTransaction) (id : Nat) :
    getTransactionStatus (t :: ts) id
      = if t.id = id then some t.status else getTransactionStatus ts id := by
  by_cases h : t.id = id <;>
    simp [getTransactionStatus, List.find?_cons, h]

/-- Updating one id leaves every other id's status unchanged. -/
theorem getTransactionStatus_updateStatus_ne (q : List QueuedTransaction)
    (id id2 : Nat) (st : TransactionStatus) (hne : id2 ≠ id) :
    getTransactionStatus (updateStatus q id st) id2 = getTransactionStatus q id2 := by
  induction q with
  | nil => rfl
  | cons t ts ih =>
    have h4 : id ≠ id2 := fun hh => hne hh.symm
    by_cases h : t.id = id
    · simp [updateStatus, h, getTransactionStatus_cons, h4]
    · by_cases h3 : t.id = id2
      · simp [updateStatus, h, h3, hne, getTransactionStatus_cons]
      · simp [updateStatus, h, h3, getTransactionStatus_cons, ih]

/-- Updating an id that is present makes its status the written one. -/
theorem getTransactionStatus_updateStatus_self (q : List QueuedTransaction)
    (id : Nat) (st : TransactionStatus)
    (hsome : (getTransactionStatus q id).isSome = true) :
    getTransactionStatus (updateStatus q id st) id = some st := by
  induction q with
  | nil => simp [getTransactionStatus] at hsome
  | cons t ts ih =>
    by_cases h : t.id = id
    · simp [updateStatus, h, getTransactionStatus_cons]
    · rw [getTransactionStatus_cons, if_neg h] at hsome
      simp [updateStatus, h, getTransactionStatus_cons, ih hsome]

/-- The manager-outcome handler only rewrites the processed id. -/
theorem queueExecuteTransactionRun_other (q1 : List QueuedTransaction)
    (id id2 : Nat) (mres : Except String TransactionResult) (hne : id2 ≠ id) :
    getTransactionStatus ((queueExecuteTransactionRun q1 id mres).1) id2
      = getTransactionStatus q1 id2 := by
  cases mres with
  | error e => rfl
  | ok r =>
    cases r with
    | success h bn gu =>
      simp [queueExecuteTransactionRun,
        getTransactionStatus_updateStatus_ne _ _ _ _ hne]
    | failed err rb =>
      simp [queueExecuteTransactionRun,
        getTransactionStatus_updateStatus_ne _ _ _ _ hne]

/-- The queue's execute_transaction only rewrites the processed id. -/
theorem queueExecuteTransaction_status_ne (q : List QueuedTransaction)
    (id id2 : Nat) (mres : Except String TransactionResult) (hne : id2 ≠ id) :
    getTransactionStatus ((queueExecuteTransaction q id mres).1) id2
      = getTransactionStatus q id2 := by
  cases hfind : q.find? (fun t => t.id == id) with
  | none => simp [queueExecuteTransaction, hfind]
  | some t =>
    cases hstatus : t.status with
    | pending =>
      simp only [queueExecuteTransaction, hfind, hstatus]
      rw [queueExecuteTransactionRun_other _ _ _ _ hne,
        getTransactionStatus_updateStatus_ne _ _ _ _ hne]
    | inProgress => simp [queueExecuteTransaction, hfind, hstatus]
    | success h bn gu => simp [queueExecuteTransaction, hfind, hstatus]
    | skipped => simp [queueExecuteTransaction, hfind, hstatus]
    | failed err rb =>
      cases rb with
      | false => simp [queueExecuteTransaction, hfind, hstatus]
      | true =>
        simp only [queueExecuteTransaction, hfind, hstatus]
        rw [queueExecuteTransactionRun_other _ _ _ _ hne,
          getTransactionStatus_updateStatus_ne _ _ _ _ hne]

/-- One execute_all iteration for one id leaves every other id's status
unchanged: each branch only rewrites the processed id. -/
theorem executeAllStep_other (q : List QueuedTransaction) (id id2 : Nat)
    (mres : Except String TransactionResult) (hne : id2 ≠ id) :
    getTransactionStatus ((executeAllStep q id mres).1) id2
      = getTransactionStatus q id2 := by
  have hq := queueExecuteTransaction_status_ne q id id2 mres hne
  cases hqe : queueExecuteTransaction q id mres with
  | mk q1 rp =>
    cases rp with
    | mk r inv =>
      rw [hqe] at hq
      cases r with
      | ok u => simp [executeAllStep, hqe, hq]
      | error e =>
        simp [executeAllStep, hqe,
          getTransactionStatus_updateStatus_ne _ _ _ _ hne, hq]

/-- After its own execute_all iteration, a processed id that was present in
the queue ends with a status that the execute-one entry guard rejects:
Success, or Failed with retryable false. -/
theorem executeAllStep_self (q : List QueuedTransaction) (id : Nat)
    (mres : Except String TransactionResult)
    (hsome : (getTransactionStatus q id).isSome = true) :
    ∃ st, getTransactionStatus ((executeAllStep q id mres).1) id = some st
      ∧ executeOneAccepts st = false := by
  cases hfind : q.find? (fun t => t.id == id) with
  | none =>
    exfalso
    simp [getTransactionStatus, hfind] at hsome
  | some t =>
    have hq1 : (getTransactionStatus
        (updateStatus q id TransactionStatus.inProgress) id).isSome = true := by
      rw [getTransactionStatus_updateStatus_self q id _ hsome]
      rfl
    cases hstatus : t.status with
    | pending =>
      cases mres with
      | error e =>
        refine ⟨TransactionStatus.failed e false, ?_, rfl⟩
        simp only [executeAllStep, queueExecuteTransaction,
          queueExecuteTransactionRun, hfind, hstatus]
        exact getTransactionStatus_updateStatus_self _ id _ hq1
      | ok r =>
        cases r with
        | success h bn gu =>
          refine ⟨TransactionStatus.success h bn gu, ?_, rfl⟩
          simp only [executeAllStep, queueExecuteTransaction,
            queueExecuteTransactionRun, hfind, hstatus]
          exact getTransactionStatus_updateStatus_self _ id _ hq1
        | failed err rb =>
          refine ⟨TransactionStatus.failed ("Transaction failed: " ++ err) false,
            ?_, rfl⟩
          simp only [executeAllStep, queueExecuteTransaction,
            queueExecuteTransactionRun, hfind, hstatus]
          have hq2 : (getTransactionStatus
              (updateStatus (updateStatus q id TransactionStatus.inProgress) id
                (TransactionStatus.failed err rb)) id).isSome = true := by
            rw [getTransactionStatus_updateStatus_self _ id _ hq1]
            rfl
          exact getTransactionStatus_updateStatus_self _ id _ hq2
    | inProgress =>
      refine ⟨TransactionStatus.failed
        "Transaction cannot be executed in current state" false, ?_, rfl⟩
      simp only [executeAllStep, queueExecuteTransaction, hfind, hstatus]
      exact getTransactionStatus_updateStatus_self _ id _ hsome
    | success h bn gu =>
      refine ⟨TransactionStatus.failed
        "Transaction cannot be executed in current state" false, ?_, rfl⟩
      simp only [executeAllStep, queueExecuteTransaction, hfind, hstatus]
      exact getTransactionStatus_updateStatus_self _ id _ hsome
    | skipped =>
      refine ⟨TransactionStatus.failed
        "Transaction cannot be executed in current state" false, ?_, rfl⟩
      simp only [executeAllStep, queueExecuteTransaction, hfind, hstatus]
      exact getTransactionStatus_updateStatus_self _ id _ hsome
    | failed err rb =>
      cases rb with
      | false =>
        refine ⟨TransactionStatus.failed
          "Transaction cannot be executed in current state" false, ?_, rfl⟩
        simp only [executeAllStep, queueExecuteTransaction, hfind, hstatus]
        exact getTransactionStatus_updateStatus_self _ id _ hsome
      | true =>
        cases mres with
        | error e =>
          refine ⟨TransactionStatus.failed e false, ?_, rfl⟩
          simp only [executeAllStep, queueExecuteTransaction,
            queueExecuteTransactionRun, hfind, hstatus]
          exact getTransactionStatus_updateStatus_self _ id _ hq1
        | ok r =>
          cases r with
          | success h bn gu =>
            refine ⟨TransactionStatus.success h bn gu, ?_, rfl⟩
            simp only [executeAllStep, queueExecuteTransaction,
              queueExecuteTransactionRun, hfind, hstatus]
            exact getTransactionStatus_updateStatus_self _ id _ hq1
          | failed err2 rb2 =>
            refine ⟨TransactionStatus.failed ("Transaction failed: " ++ err2) false,
              ?_, rfl⟩
            simp only [executeAllStep, queueExecuteTransaction,
              queueExecuteTransactionRun, hfind, hstatus]
            have hq2 : (getTransactionStatus
                (updateStatus (updateStatus q id TransactionStatus.inProgress) id
                  (TransactionStatus.failed err2 rb2)) id).isSome = true := by
              rw [getTransactionStatus_updateStatus_self _ id _ hq1]
              rfl
            exact getTransactionStatus_updateStatus_self _ id _ hq2

/-- The execute_all loop leaves the status of an id outside the processed
list unchanged (with no interference). -/
theorem executeAllGo_not_mem (mres : Nat → Except String TransactionResult) :
    ∀ (ids : List Nat) (k : Nat) (q : List QueuedTransaction) (id : Nat),
      id ∉ ids →
      getTransactionStatus ((executeAllGo mres (fun _ qq => qq) ids k q).1) id
        = getTransactionStatus q id := by
  intro ids
  induction ids with
  | nil =>
    intro k q id _
    rfl
  | cons id0 rest ih =>
    intro k q id hmem
    have hne : id ≠ id0 := fun h => hmem (h ▸ List.mem_cons_self id0 rest)
    have hmem2 : id ∉ rest := fun h => hmem (List.mem_cons_of_mem id0 h)
    have hunfold : (executeAllGo mres (fun _ qq => qq) (id0 :: rest) k q).1
        = (executeAllGo mres (fun _ qq => qq) rest (k + 1)
            (executeAllStep q id0 (mres k)).1).1 := rfl
    rw [hunfold, ih (k + 1) _ id hmem2,
      executeAllStep_other q id0 id (mres k) hne]

/-- An id in the pending snapshot is present in the queue. -/
theorem mem_pendingIds (q : List QueuedTransaction) (id : Nat)
    (hmem : id ∈ pendingIds q) :
    (getTransactionStatus q id).isSome = true := by
  induction q with
  | nil => simp [pendingIds] at hmem
  | cons t ts ih =>
    by_cases h : t.id = id
    · simp [getTransactionStatus_cons, h]
    · have hmem2 : id ∈ pendingIds ts := by
        simp only [pendingIds, List.filter_cons] at hmem
        split at hmem
        · simp only [List.map_cons, List.mem_cons] at hmem
          rcases hmem with h1 | h1
          · exact absurd h1.symm h
          · exact h1
        · exact hmem
      simp [getTransactionStatus_cons, h, ih hmem2]

/-- When the queue's ids are pairwise distinct, so is the pending snapshot. -/
theorem pendingIds_nodup (q : List QueuedTransaction)
    (h : (q.map (fun t => t.id)).Nodup) : (pendingIds q).Nodup := by
  have hsub : List.Sublist (pendingIds q) (q.map (fun t => t.id)) := by
    simp only [pendingIds]
    exact (List.filter_sublist q).map (fun t => t.id)
  exact h.sublist hsub

/-- After the execute_all loop processes a snapshot of pairwise-distinct ids
with no interference, every processed id that was present ends with a status
the execute-one entry guard rejects. -/
theorem executeAllGo_accepts_false (mres : Nat → Except String TransactionResult) :
    ∀ (ids : List Nat) (k : Nat) (q : List QueuedTransaction) (id : Nat),
      ids.Nodup → id ∈ ids →
      (getTransactionStatus q id).isSome = true →
      ∀ st,
        getTransactionStatus ((executeAllGo mres (fun _ qq => qq) ids k q).1) id
          = some st →
        executeOneAccepts st = false := by
  intro ids
  induction ids with
  | nil =>
    intro k q id _ hmem
    simp at hmem
  | cons id0 rest ih =>
    intro k q id hnd hmem hsome st hst
    have hunfold : (executeAllGo mres (fun _ qq => qq) (id0 :: rest) k q).1
        = (executeAllGo mres (fun _ qq => qq) rest (k + 1)
            (executeAllStep q id0 (mres k)).1).1 := rfl
    rw [hunfold] at hst
    by_cases heq : id = id0
    · subst heq
      obtain ⟨st1, hst1, hacc⟩ := executeAllStep_self q id (mres k) hsome
      have hnotmem : id ∉ rest := (List.nodup_cons.mp hnd).1
      rw [executeAllGo_not_mem mres rest (k + 1) _ id hnotmem, hst1] at hst
      cases hst
      exact hacc
    · have hmem2 : id ∈ rest := by
        rcases List.mem_cons.mp hmem with h | h
        · exact absurd h heq
        · exact h
      have hsome2 : (getTransactionStatus
          ((executeAllStep q id0 (mres k)).1) id).isSome = true := by
        rw [executeAllStep_other q id0 id (mres k) heq]
        exact hsome
      exact ih (k + 1) _ id (List.nodup_cons.mp hnd).2 hmem2 hsome2 st hst

/-- C10: when a transaction executed inside execute_all fails, the loop
records it as Failed with retryable false regardless of the manager's
classification: the iteration for a pending id whose manager outcome is
Failed with retryable true records Failed with retryable false and the
manager's error text behind the fixed prefix; and after execute_all finishes
a batch over a queue with pairwise-distinct ids, no id of the pending
snapshot is left in a state the execute-one entry guard would accept for a
manual retry. -/
theorem claim_C10 :
    (∀ (q : List QueuedTransaction) (id : Nat) (err : String) (r : Bool),
        getTransactionStatus q id = some TransactionStatus.pending →
        (executeAllStep q id (Except.ok (TransactionResult.failed err r))).2.1
          = (id, TransactionStatus.failed ("Transaction failed: " ++ err) false))
    ∧ (∀ (q : List QueuedTransaction) (mres : Nat → Except String TransactionResult),
        (q.map (fun t => t.id)).Nodup →
        ∀ id ∈ pendingIds q, ∀ st,
          getTransactionStatus ((executeAll q mres (fun _ qq => qq)).1) id
            = some st →
          executeOneAccepts st = false) := by
  constructor
  · intro q id err r hpend
    simp only [getTransactionStatus] at hpend
    cases hfind : q.find? (fun t => t.id == id) with
    | none =>
      rw [hfind] at hpend
      simp at hpend
    | some t =>
      rw [hfind] at hpend
      simp only [Option.map_some', Option.some.injEq] at hpend
      simp [executeAllStep, queueExecuteTransaction, queueExecuteTransactionRun,
        hfind, hpend]
  · intro q mres hnd id hmem st hst
    exact executeAllGo_accepts_false mres (pendingIds q) 0 q id
      (pendingIds_nodup q hnd) hmem (mem_pendingIds q id hmem) st hst

/-- Witness for C10 at a concrete input: one pending transaction whose
manager outcome is a retryable failure is recorded as Failed with retryable
false, and after execute_all it is in no state execute_transaction would
accept again. -/
theorem claim_C10_witness :
    (executeAllStep
        [⟨0, ⟨1, 10, 21000, 1, "op"⟩, TransactionStatus.pending, "d", "l"⟩] 0
        (Except.ok (TransactionResult.failed "boom" true))).2.1
      = (0, TransactionStatus.failed ("Transaction failed: " ++ "boom") false)
    ∧ executeOneAccepts
        (TransactionStatus.failed "Transaction failed: boom" false) = false :=
  ⟨claim_C10.1 [⟨0, ⟨1, 10, 21000, 1, "op"⟩, TransactionStatus.pending, "d", "l"⟩]
      0 "boom" true (by decide),
   claim_C10.2 [⟨0, ⟨1, 10, 21000, 1, "op"⟩, TransactionStatus.pending, "d", "l"⟩]
      (fun _ => Except.ok (TransactionResult.failed "boom" true)) (by decide)
      0 (by decide) (TransactionStatus.failed "Transaction failed: boom" false)
      (by decide)⟩

/-- C3, amended: a transaction whose id was in the pending snapshot but whose
status was changed away from Pending before its turn (for example Skipped by
the user) is never executed — the manager is not invoked for it — but its
status is nonetheless transitioned by execute_all: the rejected
execute_transaction call makes the loop overwrite the status with Failed
carrying the rejection text and retryable false, so a Skipped transaction is
Failed, not Skipped, after its turn.  The claim's assertion that the status
is left untouched is refuted by the counterexample. -/
theorem claim_C3 (q : List QueuedTransaction) (id : Nat)
    (mres : Except String TransactionResult)
    (hskip : getTransactionStatus q id = some TransactionStatus.skipped) :
    (executeAllStep q id mres).2.2 = false
    ∧ (executeAllStep q id mres).2.1
        = (id, TransactionStatus.failed
            "Transaction cannot be executed in current state" false)
    ∧ (executeAllStep q id mres).1
        = updateStatus q id
            (TransactionStatus.failed
              "Transaction cannot be executed in current state" false) := by
  simp only [getTransactionStatus] at hskip
  cases hfind : q.find? (fun t => t.id == id) with
  | none =>
    rw [hfind] at hskip
    simp at hskip
  | some t =>
    rw [hfind] at hskip
    simp only [Option.map_some', Option.some.injEq] at hskip
    simp [executeAllStep, queueExecuteTransaction, hfind, hskip]

/-- C3 counterexample: a queue holding one pending transaction is passed to
execute_all while interference skips that transaction before its turn (using
the queue's own skip operation).  The manager is never invoked, as the claim
says, but afterwards the transaction's status is Failed with the rejection
text and retryable false — not Skipped — so the claim that execute_all never
transitions such a transaction is false. -/
theorem claim_C3_counterexample :
    getTransactionStatus
        ((executeAll
          [⟨0, ⟨1, 10, 21000, 1, "op"⟩, TransactionStatus.pending, "d", "l"⟩]
          (fun _ => Except.ok (TransactionResult.success 5 none 0))
          (fun k qq => if k = 0 then (skipTransaction qq 0).1 else qq)).1) 0
      = some (TransactionStatus.failed
          "Transaction cannot be executed in current state" false)
    ∧ (executeAll
          [⟨0, ⟨1, 10, 21000, 1, "op"⟩, TransactionStatus.pending, "d", "l"⟩]
          (fun _ => Except.ok (TransactionResult.success 5 none 0))
          (fun k qq => if k = 0 then (skipTransaction qq 0).1 else qq)).2.2
        = [(0, false)]
    ∧ ¬ (getTransactionStatus
          ((executeAll
            [⟨0, ⟨1, 10, 21000, 1, "op"⟩, TransactionStatus.pending, "d", "l"⟩]
            (fun _ => Except.ok (TransactionResult.success 5 none 0))
            (fun k qq => if k = 0 then (skipTransaction qq 0).1 else qq)).1) 0
        = some TransactionStatus.skipped) := by
  refine ⟨by decide, by decide, by decide⟩

/-- Witness for C3 at a concrete input: a queue whose only transaction is
already Skipped at its turn. -/
theorem claim_C3_witness :
    (executeAllStep
        [⟨0, ⟨1, 10, 21000, 1, "op"⟩, TransactionStatus.skipped, "d", "l"⟩] 0
        (Except.ok (TransactionResult.success 5 none 0))).2.2 = false
    ∧ (executeAllStep
        [⟨0, ⟨1, 10, 21000, 1, "op"⟩, TransactionStatus.skipped, "d", "l"⟩] 0
        (Except.ok (TransactionResult.success 5 none 0))).2.1
      = (0, TransactionStatus.failed
          "Transaction cannot be executed in current state" false)
    ∧ (executeAllStep
        [⟨0, ⟨1, 10, 21000, 1, "op"⟩, TransactionStatus.skipped, "d", "l"⟩] 0
        (Except.ok (TransactionResult.success 5 none 0))).1
      = updateStatus
          [⟨0, ⟨1, 10, 21000, 1, "op"⟩, TransactionStatus.skipped, "d", "l"⟩] 0
          (TransactionStatus.failed
            "Transaction cannot be executed in current state" false) :=
  claim_C3 [⟨0, ⟨1, 10, 21000, 1, "op"⟩, TransactionStatus.skipped, "d", "l"⟩] 0
    (Except.ok (TransactionResult.success 5 none 0)) (by decide)

/-- A scan whose derivation calls succeed strictly below index j (with every
balance call succeeding and the consecutive-empty counter staying below the
target throughout the window, so the loop is still running when it reaches j)
and whose derivation call fails at j returns a normal cancelled result that
keeps every record gathered so far. -/
theorem scanGo_derive_error (derive : Nat → Except String Nat) (bal : Nat → Nat)
    (path : Nat → String) (emptyTarget : Nat) (addr : Nat → Nat) (j : Nat)
    (err : String) (hj : derive j = Except.error err) :
    ∀ (fuel start consecutiveEmpty lastScanned : Nat)
      (emptySeq : List (Nat × Nat)) (records : List Balance.BalanceScanRecord),
      (∀ i, start ≤ i → i < j → derive i = Except.ok (addr i)) →
      start ≤ j →
      (∀ n, n ≤ j - start →
        Balance.emptyStreakGo addr bal consecutiveEmpty start n < emptyTarget) →
      j - start < fuel →
      ∃ seq2 last2,
        Balance.scanGo derive (fun a => Except.ok (bal a)) path emptyTarget fuel
            consecutiveEmpty start lastScanned emptySeq records
          = Except.ok (some
              { records := records
                  ++ Balance.recordsRange addr bal path start (j - start),
                emptyAddresses := seq2, lastScannedIndex := last2,
                metTarget := false, cancelled := true }) := by
  intro fuel
  induction fuel with
  | zero =>
    intro start ce last seq recs _ _ _ hfuel
    omega
  | succ f ihf =>
    intro start ce last seq recs hok hstart hstreak hfuel
    have hce : ce < emptyTarget := by
      have := hstreak 0 (Nat.zero_le _)
      simpa [Balance.emptyStreakGo] using this
    have hlt : ¬ emptyTarget ≤ ce := by omega
    by_cases hj2 : start = j
    · subst hj2
      refine ⟨seq, last, ?_⟩
      simp only [Balance.scanGo, if_neg hlt, hj]
      have h0 : start - start = 0 := by omega
      rw [h0]
      simp only [Balance.recordsRange, List.append_nil]
      have hmt : decide (emptyTarget ≤ ce) = false := by
        simp
        omega
      rw [hmt]
    · have hstart2 : start < j := by omega
      have hde : derive start = Except.ok (addr start) := hok start (Nat.le_refl _) hstart2
      have hjs : j - start = (j - (start + 1)) + 1 := by omega
      by_cases hb : bal (addr start) = 0
      · have hstreak2 : ∀ n, n ≤ j - (start + 1) →
            Balance.emptyStreakGo addr bal (ce + 1) (start + 1) n < emptyTarget := by
          intro n hn
          have := hstreak (n + 1) (by omega)
          simp only [Balance.emptyStreakGo] at this
          rwa [if_pos hb] at this
        obtain ⟨seq2, last2, heq⟩ := ihf (start + 1) (ce + 1) start
          (seq ++ [(start, addr start)])
          (recs ++ [⟨start, addr start, bal (addr start), path start⟩])
          (fun i h1 h2 => hok i (by omega) h2) (by omega) hstreak2 (by omega)
        refine ⟨seq2, last2, ?_⟩
        simp only [Balance.scanGo, if_neg hlt, hde]
        rw [if_pos hb, heq, hjs]
        simp [Balance.recordsRange]
      · have hstreak2 : ∀ n, n ≤ j - (start + 1) →
            Balance.emptyStreakGo addr bal 0 (start + 1) n < emptyTarget := by
          intro n hn
          have := hstreak (n + 1) (by omega)
          simp only [Balance.emptyStreakGo] at this
          rwa [if_neg hb] at this
        obtain ⟨seq2, last2, heq⟩ := ihf (start + 1) 0 start []
          (recs ++ [⟨start, addr start, bal (addr start), path start⟩])
          (fun i h1 h2 => hok i (by omega) h2) (by omega) hstreak2 (by omega)
        refine ⟨seq2, last2, ?_⟩
        simp only [Balance.scanGo, if_neg hlt, hde]
        rw [if_neg hb, heq, hjs]
        simp [Balance.recordsRange]

/-- C4, amended: when an address-derivation call fails mid-scan — at any
index j the oracle rejects, every earlier derivation and every balance lookup
succeeding, the consecutive-empty counter (which zero balances increment and
funded addresses reset) staying below the target throughout the window so the
scan is still running when it reaches j — scan_consecutive_empty returns a
normal, non-error result whose cancelled flag is true, whose met-target flag
is false, and whose records field keeps every record gathered before the
failure.  When instead it is a balance-lookup call that fails, the scan does
not return such a cancelled result: the error propagates and discards the
gathered records (see the counterexample). -/
theorem claim_C4 (derive : Nat → Except String Nat) (bal : Nat → Nat)
    (path : Nat → String) (addr : Nat → Nat)
    (emptyTarget startIndex fuel j : Nat) (err : String)
    (hj : derive j = Except.error err)
    (hok : ∀ i, startIndex ≤ i → i < j → derive i = Except.ok (addr i))
    (hstart : startIndex ≤ j)
    (hreach : ∀ n, n ≤ j - startIndex →
      Balance.emptyStreak addr bal startIndex n < emptyTarget)
    (hfuel : j - startIndex < fuel) :
    ∃ r, Balance.scanConsecutiveEmpty derive (fun a => Except.ok (bal a)) path
        emptyTarget startIndex fuel = Except.ok (some r)
      ∧ r.cancelled = true
      ∧ r.metTarget = false
      ∧ r.records = Balance.recordsRange addr bal path startIndex (j - startIndex) := by
  obtain ⟨seq2, last2, heq⟩ := scanGo_derive_error derive bal path emptyTarget addr j
    err hj fuel startIndex 0 (startIndex - 1) [] [] hok hstart hreach hfuel
  refine ⟨{ records := Balance.recordsRange addr bal path startIndex (j - startIndex),
            emptyAddresses := seq2, lastScannedIndex := last2,
            metTarget := false, cancelled := true }, ?_, rfl, rfl, rfl⟩
  simpa [Balance.scanConsecutiveEmpty] using heq

/-- C4 counterexample: a scan whose derivation calls all succeed but whose
balance lookup fails at the second visited address (the first address was
funded, so one record had already been gathered) returns a hard error, not a
normal result with the cancelled flag set, discarding the gathered record.
So the claim as stated is false for balance-lookup failures. -/
theorem claim_C4_counterexample :
    Balance.scanConsecutiveEmpty (fun i => Except.ok (i + 100))
        (fun a => if a = 100 then Except.ok 7 else Except.error "rpc error")
        (fun i => toString i) 3 0 10
      = Except.error "rpc error" := rfl

/-- Witness for C4 at a concrete input beyond the first emptyTarget indices:
with target 2, the balances alternate funded, empty, funded, empty (the
funded addresses at indices 0 and 2 reset the streak, keeping it below the
target), and derivation fails at index 4; the scan is cancelled with all four
gathered records preserved. -/
theorem claim_C4_witness :
    ∃ r, Balance.scanConsecutiveEmpty
        (fun i => if i = 4 then Except.error "dev" else Except.ok (i + 10))
        (fun a => Except.ok ((fun b => if b = 11 ∨ b = 13 then 0 else 3) a))
        (fun i => toString i) 2 0 10
      = Except.ok (some r)
      ∧ r.cancelled = true
      ∧ r.metTarget = false
      ∧ r.records = Balance.recordsRange (fun i => i + 10)
          (fun b => if b = 11 ∨ b = 13 then 0 else 3)
          (fun i => toString i) 0 (4 - 0) :=
  claim_C4 (fun i => if i = 4 then Except.error "dev" else Except.ok (i + 10))
    (fun b => if b = 11 ∨ b = 13 then 0 else 3) (fun i => toString i)
    (fun i => i + 10) 2 0 10 4 "dev" rfl
    (fun i _ h => by interval_cases i <;> rfl) (by decide) (by decide) (by decide)

end Beaug
